import Mathlib

/-!
Verification development for the canopy excerpt: the CohereReranker adapter
(src/canopy/knowledge_base/reranker/cohere.py) and the OpenAILLM chat or
function-calling adapter exercised by tests/system/llm/test_openai.py.
Scores (Python floats compared with ≥) are modelled as rationals, Python
lists as Lean lists, and fallible code as Option or Except values.
-/

/-- A vendor rerank response entry: an index into the submitted document
texts together with a relevance score, as described for the vendor
reranking API. -/
structure RerankResult where
  index : Nat
  relevance_score : Rat
deriving DecidableEq

/-- A scored knowledge-base document as consumed by the reranker: the
fields the reranker touches (`text`, `score`) plus an `id` standing for the
remaining payload that a deep copy preserves. -/
structure KBDoc where
  id : String
  text : String
  score : Rat
deriving DecidableEq

/-- KBQueryResult: one query together with its retrieved documents. -/
structure KBQueryResult where
  query : String
  documents : List KBDoc
deriving DecidableEq

/-- The vendor rerank client: receives query, document texts, top_n and
model name, and returns the response entries.  The Python call is
self._client.rerank(query=.., documents=texts, top_n=.., model=..). -/
abbrev RerankClient := String → List String → Int → String → List RerankResult

/-- The CohereReranker configuration fixed at construction:
model_name, top_n (Python int) and threshold. -/
structure CohereReranker where
  model_name : String
  top_n : Int
  threshold : Rat
deriving DecidableEq

/-- The inner loop of CohereReranker.rerank over the vendor response:
for each entry r with r.relevance_score >= threshold, append a deep copy of
documents[r.index] with its score field set to r.relevance_score.  An index
outside the document list would raise IndexError in Python, modelled as
none. -/
def rerankDocs (threshold : Rat) (documents : List KBDoc) :
    List RerankResult → Option (List KBDoc)
  | [] => some []
  | r :: rest =>
    if threshold ≤ r.relevance_score then
      match documents[r.index]? with
      | none => none
      | some d =>
        (rerankDocs threshold documents rest).map
          (fun tail => { d with score := r.relevance_score } :: tail)
    else rerankDocs threshold documents rest

/-- One iteration of CohereReranker.rerank: gather the document texts, call
the vendor client, filter and rescore the documents, and rebuild a
KBQueryResult with the same query. -/
def CohereReranker.rerankOne (self : CohereReranker) (client : RerankClient)
    (q_res : KBQueryResult) : Option KBQueryResult :=
  let texts := q_res.documents.map (fun doc => doc.text)
  let response := client q_res.query texts self.top_n self.model_name
  (rerankDocs self.threshold q_res.documents response).map
    (fun docs => { query := q_res.query, documents := docs })

/-- CohereReranker.rerank: process every query result in order, collecting
the reranked results. -/
def CohereReranker.rerank (self : CohereReranker) (client : RerankClient) :
    List KBQueryResult → Option (List KBQueryResult)
  | [] => some []
  | q_res :: rest => do
    let q2 ← self.rerankOne client q_res
    let rest2 ← self.rerank client rest
    pure (q2 :: rest2)

/-- Concrete reranker configuration used by the witnesses. -/
def rerankerW : CohereReranker :=
  { model_name := "rerank-english-v2.0", top_n := 10, threshold := 1 }

/-- Concrete vendor rerank client used by the witnesses: it always returns
two entries, one above and one below the threshold of rerankerW. -/
def rerankClientW : RerankClient := fun _ _ _ _ =>
  [{ index := 1, relevance_score := 2 }, { index := 0, relevance_score := 0 }]

/-- Concrete query result fed to rerank by the witnesses. -/
def qResInW : KBQueryResult :=
  { query := "q1",
    documents := [{ id := "a", text := "ta", score := 5 },
                  { id := "b", text := "tb", score := 7 }] }

/-- The document kept by the witness run: a copy of the index-1 input
document carrying the vendor score 2. -/
def keptDocW : KBDoc := { id := "b", text := "tb", score := 2 }

/-- Concrete query result produced by the witness run. -/
def qResOutW : KBQueryResult := { query := "q1", documents := [keptDocW] }

/-- Concrete rerank input used by the witnesses. -/
def rerankInW : List KBQueryResult := [qResInW]

/-- Concrete rerank output used by the witnesses: only the index-1 document
survives the threshold, carrying the vendor score 2. -/
def rerankOutW : List KBQueryResult := [qResOutW]

/-- The construction-time failure of CohereReranker.__init__ when the
optional cohere dependency is missing.  The spec error taxonomy calls this
failure ConfigurationError; the source realises it as a Python ImportError
raised before the vendor client is built. -/
inductive RerankerInitError
  | configurationError (msg : String)
deriving DecidableEq

/-- The message of the import failure raised by CohereReranker.__init__. -/
def cohereImportErrorMsg : String :=
  "Failed to import cohere. Make sure you install cohere extra dependencies by running: `pip install canopy-sdk[cohere]"

/-- CohereReranker.__init__: when the module-level import of cohere failed
(_cohere_installed is false) the constructor raises before building any
client; otherwise it records the configuration.  The api_key is consumed by
the external cohere.Client and is not part of the recorded state. -/
def CohereReranker.init (cohereInstalled : Bool) (model_name : String)
    (top_n : Int) (threshold : Rat) : Except RerankerInitError CohereReranker :=
  if !cohereInstalled then
    Except.error (RerankerInitError.configurationError cohereImportErrorMsg)
  else
    Except.ok { model_name := model_name, top_n := top_n, threshold := threshold }

/-- A heap of document objects.  Python object identity is modelled as an
index into the cell list; deepcopy allocates a fresh cell and attribute
assignment writes to a cell. -/
structure Heap where
  cells : List KBDoc
deriving DecidableEq

/-- Read the document object at a reference. -/
def Heap.read (h : Heap) (r : Nat) : Option KBDoc := h.cells[r]?

/-- Allocate a fresh cell holding d, returning the new heap and the fresh
reference. -/
def Heap.alloc (h : Heap) (d : KBDoc) : Heap × Nat :=
  ({ cells := h.cells ++ [d] }, h.cells.length)

/-- Overwrite the cell at a reference. -/
def Heap.write (h : Heap) (r : Nat) (d : KBDoc) : Heap :=
  { cells := h.cells.set r d }

/-- A query result whose documents are references to heap cells, the
heap-level counterpart of KBQueryResult. -/
structure KBQueryResultH where
  query : String
  docs : List Nat
deriving DecidableEq

/-- Heap-level inner loop of CohereReranker.rerank:
reranked_docs.append(deepcopy(q_res.documents[r.index])) allocates a fresh
cell holding the referenced document, and reranked_docs[-1].score = ... then
writes only to that fresh cell. -/
def rerankDocsH (threshold : Rat) (docRefs : List Nat) (h : Heap) :
    List RerankResult → Option (Heap × List Nat)
  | [] => some (h, [])
  | r :: rest =>
    if threshold ≤ r.relevance_score then
      match docRefs[r.index]? with
      | none => none
      | some ref =>
        match h.read ref with
        | none => none
        | some d =>
          let ha := h.alloc d
          let h2 := ha.1.write ha.2 { d with score := r.relevance_score }
          (rerankDocsH threshold docRefs h2 rest).map
            (fun out => (out.1, ha.2 :: out.2))
    else rerankDocsH threshold docRefs h rest

/-- Heap-level body of one iteration of CohereReranker.rerank: read the
referenced documents to gather their texts, call the vendor client, then run
the filtering loop. -/
def CohereReranker.rerankOneH (self : CohereReranker) (client : RerankClient)
    (h : Heap) (q_res : KBQueryResultH) : Option (Heap × KBQueryResultH) :=
  match q_res.docs.mapM h.read with
  | none => none
  | some docs =>
    match rerankDocsH self.threshold q_res.docs h
        (client q_res.query (docs.map (fun doc => doc.text))
          self.top_n self.model_name) with
    | none => none
    | some out => some (out.1, { query := q_res.query, docs := out.2 })

/-- Heap-level CohereReranker.rerank over all query results. -/
def CohereReranker.rerankH (self : CohereReranker) (client : RerankClient)
    (h : Heap) : List KBQueryResultH → Option (Heap × List KBQueryResultH)
  | [] => some (h, [])
  | q_res :: rest =>
    match self.rerankOneH client h q_res with
    | none => none
    | some o1 =>
      match self.rerankH client o1.1 rest with
      | none => none
      | some o2 => some (o2.1, o1.2 :: o2.2)

/-- Concrete heap used by the C9 witness: the two input documents of
rerankInW stored in cells 0 and 1. -/
def heapW : Heap :=
  { cells := [{ id := "a", text := "ta", score := 5 },
              { id := "b", text := "tb", score := 7 }] }

/-- Concrete heap-level input used by the C9 witness. -/
def rerankInHW : List KBQueryResultH := [{ query := "q1", docs := [0, 1] }]

/-- Message role enumeration of canopy.models.data_models.Role. -/
inductive Role
  | user
  | assistant
  | system
  | function
deriving DecidableEq

/-- MessageBase: a role-tagged chat message. -/
structure MessageBase where
  role : Role
  content : String
deriving DecidableEq

/-- FunctionArrayProperty from canopy.llm.models: an array-typed required
property with a declared item type. -/
structure FunctionArrayProperty where
  name : String
  items_type : String
  description : String
deriving DecidableEq

/-- FunctionParameters: the ordered required property descriptors. -/
structure FunctionParameters where
  required_properties : List FunctionArrayProperty
deriving DecidableEq

/-- Function from canopy.llm.models: a Function Definition instructing the
vendor model to emit a structured argument payload. -/
structure Function where
  name : String
  description : String
  parameters : FunctionParameters
deriving DecidableEq

/-- A JSON-like value, enough for decoded vendor argument payloads. -/
inductive JsonValue
  | str (s : String)
  | num (n : Int)
  | arr (elems : List JsonValue)

/-- A Structured Call Result: the key/value mapping decoded from the
vendor argument string. -/
abbrev StructuredPayload := List (String × JsonValue)

/-- The single-quote character of jsonschema error messages. -/
def squote : String := String.mk [Char.ofNat 39]

/-- The jsonschema wording for a missing required property. -/
def requiredPropertyMsg (name : String) : String :=
  squote ++ name ++ squote ++ " is a required property"

/-- The wording for a present required property of the wrong shape. -/
def badShapeMsg (name : String) : String :=
  squote ++ name ++ squote ++ " does not match the declared array schema"

/-- Modelled from the spec: an element of an array-typed property
satisfies the declared item type when it is a non-empty value of it; the
spec and the tests instantiate this only with non-empty strings for the
string item type. -/
def itemOk : String → JsonValue → Bool
  | it, JsonValue.str s => it == "string" && !(s.isEmpty)
  | _, _ => false

/-- Modelled from the spec: the declared shape of an array-typed required
property — present, a non-empty ordered sequence, with every element of
the declared item type. -/
def propShapeOk (payload : StructuredPayload) (prop : FunctionArrayProperty) :
    Bool :=
  match payload.lookup prop.name with
  | some (JsonValue.arr elems) =>
    !(elems.isEmpty) && elems.all (itemOk prop.items_type)
  | _ => false

/-- The first required property name absent from the payload, if any. -/
def findMissing (f : Function) (payload : StructuredPayload) : Option String :=
  (f.parameters.required_properties.find?
    (fun prop => (payload.lookup prop.name).isNone)).map (fun prop => prop.name)

/-- Modelled from the spec: the Function-Call Schema Validator, absent from
the shown sources.  A payload is accepted when every required property is
present with the declared array shape; a missing required property is
reported first, with the jsonschema wording naming that property. -/
def Function.validate (f : Function) (payload : StructuredPayload) :
    Except String StructuredPayload :=
  match f.parameters.required_properties.find?
      (fun prop => (payload.lookup prop.name).isNone) with
  | some prop => Except.error (requiredPropertyMsg prop.name)
  | none =>
    match f.parameters.required_properties.find?
        (fun prop => !(propShapeOk payload prop)) with
    | some prop => Except.error (badShapeMsg prop.name)
    | none => Except.ok payload

/-- The orchestrator error taxonomy: UpstreamError when the vendor client
itself raises, SchemaValidationError when payloads failed validation. -/
inductive LLMError
  | upstreamError (msg : String)
  | schemaValidationError (msg : String)
deriving DecidableEq

/-- Modelled from the spec: one vendor chat-client round trip in
function-calling mode either raises or yields the first tool-call argument
payload, already decoded. -/
inductive VendorResult
  | payload (p : StructuredPayload)
  | failure (msg : String)

/-- The vendor chat client as seen by the orchestrator: each attempt is a
fresh round trip indexed by attempt number, so retries may observe
different payloads. -/
abbrev ChatClient := List MessageBase → Nat → VendorResult

/-- Modelled from the spec: the total attempt bound of the enforced
function-call orchestrator (3 total attempts). -/
def MAX_ATTEMPTS : Nat := 3

/-- Modelled from the spec: the retry loop of the Enforced Function-Call
Orchestrator, absent from the shown sources.  Each iteration is a full
vendor round trip; a vendor failure propagates immediately as
UpstreamError with no retry; a payload failing validation is retried while
retries remain and the last validation error is raised as
SchemaValidationError.  The result carries the number of vendor calls made
together with the outcome. -/
def enforcedCallFrom (client : ChatClient) (f : Function)
    (messages : List MessageBase) :
    Nat → Nat → Nat × Except LLMError StructuredPayload
  | attemptIdx, 0 =>
    match client messages attemptIdx with
    | VendorResult.failure msg => (1, Except.error (LLMError.upstreamError msg))
    | VendorResult.payload p =>
      match Function.validate f p with
      | Except.ok m => (1, Except.ok m)
      | Except.error msg => (1, Except.error (LLMError.schemaValidationError msg))
  | attemptIdx, n + 1 =>
    match client messages attemptIdx with
    | VendorResult.failure msg => (1, Except.error (LLMError.upstreamError msg))
    | VendorResult.payload p =>
      match Function.validate f p with
      | Except.ok m => (1, Except.ok m)
      | Except.error _ =>
        let next := enforcedCallFrom client f messages (attemptIdx + 1) n
        (next.1 + 1, next.2)

/-- Modelled from the spec: OpenAILLM.enforced_function_call, absent from
the shown sources — the orchestrator run with 3 total attempts. -/
def enforced_function_call (client : ChatClient) (f : Function)
    (messages : List MessageBase) : Nat × Except LLMError StructuredPayload :=
  enforcedCallFrom client f messages 0 (MAX_ATTEMPTS - 1)

/-- One choice of a Chat Response. -/
structure ChatChoice where
  message : MessageBase
deriving DecidableEq

/-- ChatResponse from canopy.models.api_models. -/
structure ChatResponse where
  choices : List ChatChoice
deriving DecidableEq

/-- StreamingChatChunk from canopy.models.api_models: one incremental
content delta. -/
structure StreamingChatChunk where
  content : String
deriving DecidableEq

/-- The generation parameters that shape the response; temperature and
top_p are forwarded verbatim to the vendor and do not affect the contract. -/
structure ModelParams where
  n : Option Nat
  max_tokens : Option Int
deriving DecidableEq

/-- The vendor response built from the generation oracle: one assistant
message per requested choice. -/
def mkChatResponse (gen : List MessageBase → Nat → String)
    (messages : List MessageBase) (n : Nat) : ChatResponse :=
  { choices := (List.range n).map
      (fun i => { message := { role := Role.assistant, content := gen messages i } }) }

/-- Message of the synchronous vendor rejection of an empty conversation. -/
def emptyMessagesMsg : String := "messages must be a non-empty list"

/-- Message of the synchronous vendor rejection of a negative max_tokens. -/
def negativeMaxTokensMsg : String := "max_tokens must be at least 1"

/-- Modelled from the spec: the vendor chat-completion endpoint in
non-streaming mode, absent from the shown sources.  An empty messages
sequence or a negative max-token bound is rejected synchronously;
otherwise the vendor returns the requested number of choices with contents
drawn from the generation oracle. -/
def vendor_chat_completion (gen : List MessageBase → Nat → String)
    (messages : List MessageBase) (n : Nat) (max_tokens : Option Int) :
    Except LLMError ChatResponse :=
  if messages.isEmpty then
    Except.error (LLMError.upstreamError emptyMessagesMsg)
  else
    match max_tokens with
    | some t =>
      if t < 0 then Except.error (LLMError.upstreamError negativeMaxTokensMsg)
      else Except.ok (mkChatResponse gen messages n)
    | none => Except.ok (mkChatResponse gen messages n)

/-- Modelled from the spec: OpenAILLM.chat_completion in non-streaming
mode, absent from the shown sources — a pass-through to the vendor with
the requested completion count, defaulting to one. -/
def chat_completion (gen : List MessageBase → Nat → String)
    (messages : List MessageBase) (params : ModelParams) :
    Except LLMError ChatResponse :=
  vendor_chat_completion gen messages (params.n.getD 1) params.max_tokens

/-- The vendor chunking of a complete content: sizes picks each chunk
length (at least one character per chunk), and any remainder forms the
final chunk, so the chunks always cover the whole content. -/
def chunkChars : List Nat → List Char → List (List Char)
  | [], cs => if cs.isEmpty then [] else [cs]
  | k :: rest, cs =>
    if cs.isEmpty then []
    else cs.take (k + 1) :: chunkChars rest (cs.drop (k + 1))

/-- Modelled from the spec: OpenAILLM.chat_completion with stream=True,
absent from the shown sources.  The vendor applies the same synchronous
request validation, then streams the complete generated message as a
finite sequence of incremental chunks. -/
def chat_completion_stream (sgen : List MessageBase → String)
    (sizes : List Nat) (messages : List MessageBase)
    (max_tokens : Option Int) : Except LLMError (List StreamingChatChunk) :=
  if messages.isEmpty then
    Except.error (LLMError.upstreamError emptyMessagesMsg)
  else
    match max_tokens with
    | some t =>
      if t < 0 then Except.error (LLMError.upstreamError negativeMaxTokensMsg)
      else Except.ok ((chunkChars sizes (sgen messages).data).map
        (fun cs => { content := String.mk cs }))
    | none => Except.ok ((chunkChars sizes (sgen messages).data).map
        (fun cs => { content := String.mk cs }))

/-- The message assembled by concatenating the contents of a chunk
sequence. -/
def concatContent : List StreamingChatChunk → String
  | [] => ""
  | c :: rest => c.content ++ concatContent rest

/-- The required array-of-string property of the test fixture. -/
def queriesPropW : FunctionArrayProperty :=
  { name := "queries", items_type := "string",
    description := "List of queries to send to the search engine." }

/-- The Function Definition used by the tests: query_knowledgebase with one
required array-of-string property named queries. -/
def functionW : Function :=
  { name := "query_knowledgebase",
    description := "Query search engine for relevant information",
    parameters := { required_properties := [queriesPropW] } }

/-- The two-message conversation used by the tests. -/
def messagesW : List MessageBase :=
  [{ role := Role.user, content := "Hello, assistant." },
   { role := Role.assistant, content := "Hello, user. How can I assist you?" }]

/-- A well-formed decoded argument payload for functionW. -/
def goodPayloadW : StructuredPayload :=
  [("queries", JsonValue.arr [JsonValue.str "what is canopy"])]

/-- A vendor client that always returns the well-formed payload. -/
def goodChatClientW : ChatClient := fun _ _ => VendorResult.payload goodPayloadW

/-- A vendor client that always returns a payload missing the required
queries property, as in the wrong-output-schema test. -/
def badChatClientW : ChatClient := fun _ _ =>
  VendorResult.payload [("key", JsonValue.str "value")]

/-- A vendor client that always raises, as in the API-failure test. -/
def failChatClientW : ChatClient := fun _ _ =>
  VendorResult.failure "API call failed"

/-- A constant non-streaming generation oracle for the chat witnesses. -/
def genW : List MessageBase → Nat → String := fun _ _ => "Hello there"

/-- A constant streaming generation oracle for the chat witnesses. -/
def sgenW : List MessageBase → String := fun _ => "Hello"

/-- Generation parameters used by the chat witnesses. -/
def paramsW : ModelParams := { n := some 3, max_tokens := some 2 }

theorem rerankDocs_length_le (threshold : Rat) (documents : List KBDoc) :
    ∀ (response : List RerankResult) (out : List KBDoc),
      rerankDocs threshold documents response = some out →
      out.length ≤ response.length := by
  intro response
  induction response with
  | nil =>
    intro out h
    simp [rerankDocs] at h
    simp [← h]
  | cons r rest ih =>
    intro out h
    unfold rerankDocs at h
    by_cases hthr : threshold ≤ r.relevance_score
    · simp only [hthr, if_true] at h
      cases hidx : documents[r.index]? with
      | none => rw [hidx] at h; exact absurd h (by simp)
      | some d =>
        rw [hidx] at h
        cases hrec : rerankDocs threshold documents rest with
        | none => rw [hrec] at h; exact absurd h (by simp)
        | some tail =>
          rw [hrec] at h
          have hout : { d with score := r.relevance_score } :: tail = out := by
            simpa using h
          have := ih tail hrec
          rw [← hout]
          simp only [List.length_cons]
          omega
    · simp only [hthr, if_false] at h
      have := ih out h
      simp only [List.length_cons]
      omega

theorem rerankDocs_mem (threshold : Rat) (documents : List KBDoc) :
    ∀ (response : List RerankResult) (out : List KBDoc),
      rerankDocs threshold documents response = some out →
      ∀ d ∈ out, ∃ r ∈ response, ∃ d0,
        documents[r.index]? = some d0 ∧
        threshold ≤ r.relevance_score ∧
        d = { d0 with score := r.relevance_score } := by
  intro response
  induction response with
  | nil =>
    intro out h d hd
    simp [rerankDocs] at h
    subst h
    simp at hd
  | cons r rest ih =>
    intro out h d hd
    unfold rerankDocs at h
    by_cases hthr : threshold ≤ r.relevance_score
    · simp only [hthr, if_true] at h
      cases hidx : documents[r.index]? with
      | none => rw [hidx] at h; exact absurd h (by simp)
      | some d0 =>
        rw [hidx] at h
        cases hrec : rerankDocs threshold documents rest with
        | none => rw [hrec] at h; exact absurd h (by simp)
        | some tail =>
          rw [hrec] at h
          have hout : { d0 with score := r.relevance_score } :: tail = out := by
            simpa using h
          rw [← hout] at hd
          rcases List.mem_cons.mp hd with hd1 | hd2
          · exact ⟨r, List.mem_cons_self r rest, d0, hidx, hthr, hd1⟩
          · rcases ih tail hrec d hd2 with ⟨r2, hr2, d2, hd2i, hd2t, hd2e⟩
            exact ⟨r2, List.mem_cons_of_mem r hr2, d2, hd2i, hd2t, hd2e⟩
    · simp only [hthr, if_false] at h
      rcases ih out h d hd with ⟨r2, hr2, d2, hd2i, hd2t, hd2e⟩
      exact ⟨r2, List.mem_cons_of_mem r hr2, d2, hd2i, hd2t, hd2e⟩

theorem rerankOne_query (self : CohereReranker) (client : RerankClient)
    (q_res q2 : KBQueryResult) (h : self.rerankOne client q_res = some q2) :
    q2.query = q_res.query := by
  simp only [CohereReranker.rerankOne] at h
  cases hrec : rerankDocs self.threshold q_res.documents
      (client q_res.query (q_res.documents.map (fun doc => doc.text))
        self.top_n self.model_name) with
  | none => rw [hrec] at h; exact absurd h (by simp)
  | some docs =>
    rw [hrec] at h
    have : { query := q_res.query, documents := docs } = q2 := by simpa using h
    rw [← this]

theorem rerank_pairs (self : CohereReranker) (client : RerankClient) :
    ∀ (results out : List KBQueryResult),
      self.rerank client results = some out →
      out.length = results.length ∧
      ∀ p ∈ results.zip out, self.rerankOne client p.1 = some p.2 := by
  intro results
  induction results with
  | nil =>
    intro out h
    simp [CohereReranker.rerank] at h
    subst h
    simp
  | cons q rest ih =>
    intro out h
    unfold CohereReranker.rerank at h
    cases hone : self.rerankOne client q with
    | none => rw [hone] at h; exact absurd h (by simp)
    | some q2 =>
      rw [hone] at h
      cases hrest : self.rerank client rest with
      | none => rw [hrest] at h; exact absurd h (by simp [Option.bind])
      | some rest2 =>
        rw [hrest] at h
        have hout : q2 :: rest2 = out := by simpa using h
        rcases ih rest2 hrest with ⟨hlen, hmem⟩
        constructor
        · rw [← hout]; simp [hlen]
        · intro p hp
          rw [← hout] at hp
          simp only [List.zip_cons_cons, List.mem_cons] at hp
          rcases hp with hp1 | hp2
          · rw [hp1]; exact hone
          · exact hmem p hp2

/-- C2: whenever rerank succeeds (and the vendor honours its bound of at
most top_n response entries), each output query result keeps at most top_n
documents, and every kept document is a copy of one of that query results
input documents, selected by a vendor entry whose relevance score is at
least the threshold, with its score field overwritten by that vendor
relevance score. -/
theorem cohere_rerank_threshold_topn (self : CohereReranker)
    (client : RerankClient) (results out : List KBQueryResult)
    (hlen : ∀ q ts, ((client q ts self.top_n self.model_name).length : Int) ≤ self.top_n)
    (hout : self.rerank client results = some out) :
    ∀ p ∈ results.zip out,
      ((p.2.documents.length : Int) ≤ self.top_n) ∧
      ∀ d ∈ p.2.documents,
        ∃ r ∈ client p.1.query (p.1.documents.map (fun doc => doc.text))
            self.top_n self.model_name,
          ∃ d0, d0 ∈ p.1.documents ∧
            p.1.documents[r.index]? = some d0 ∧
            self.threshold ≤ r.relevance_score ∧
            d = { d0 with score := r.relevance_score } := by
  intro p hp
  have hone := (rerank_pairs self client results out hout).2 p hp
  simp only [CohereReranker.rerankOne] at hone
  cases hrec : rerankDocs self.threshold p.1.documents
      (client p.1.query (p.1.documents.map (fun doc => doc.text))
        self.top_n self.model_name) with
  | none => rw [hrec] at hone; exact absurd hone (by simp)
  | some docs =>
    rw [hrec] at hone
    have hp2 : { query := p.1.query, documents := docs } = p.2 := by
      simpa using hone
    constructor
    · have h1 := rerankDocs_length_le self.threshold p.1.documents _ docs hrec
      have h2 := hlen p.1.query (p.1.documents.map (fun doc => doc.text))
      rw [← hp2]
      simp only []
      omega
    · intro d hd
      rw [← hp2] at hd
      rcases rerankDocs_mem self.threshold p.1.documents _ docs hrec d hd with
        ⟨r, hr, d0, hidx, hthr, heq⟩
      exact ⟨r, hr, d0, List.getElem?_mem hidx, hidx, hthr, heq⟩

/-- Witness for C2: the concrete client keeps exactly the index-1 document
with its score overwritten to 2, instantiated at the concrete query-result
pair and its single kept document. -/
theorem cohere_rerank_threshold_topn_witness :
    ((qResOutW.documents.length : Int) ≤ rerankerW.top_n) ∧
    ∃ r ∈ rerankClientW qResInW.query (qResInW.documents.map (fun doc => doc.text))
        rerankerW.top_n rerankerW.model_name,
      ∃ d0, d0 ∈ qResInW.documents ∧
        qResInW.documents[r.index]? = some d0 ∧
        rerankerW.threshold ≤ r.relevance_score ∧
        keptDocW = { d0 with score := r.relevance_score } := by
  have h := cohere_rerank_threshold_topn rerankerW rerankClientW rerankInW
    rerankOutW (fun q ts => by simp [rerankClientW, rerankerW]) (by decide)
    (qResInW, qResOutW) (by decide)
  exact ⟨h.1, h.2 keptDocW (by decide)⟩

/-- C10: rerank preserves the per-query structure: the output list has the
same length as the input list and pairwise carries the same query string. -/
theorem cohere_rerank_preserves_queries (self : CohereReranker)
    (client : RerankClient) (results out : List KBQueryResult)
    (hout : self.rerank client results = some out) :
    out.length = results.length ∧
    ∀ p ∈ results.zip out, p.2.query = p.1.query := by
  rcases rerank_pairs self client results out hout with ⟨hlen, hmem⟩
  exact ⟨hlen, fun p hp => rerankOne_query self client p.1 p.2 (hmem p hp)⟩

/-- Witness for C10 at the concrete witness input. -/
theorem cohere_rerank_preserves_queries_witness :
    rerankOutW.length = rerankInW.length ∧
    ∀ p ∈ rerankInW.zip rerankOutW, p.2.query = p.1.query :=
  cohere_rerank_preserves_queries rerankerW rerankClientW rerankInW rerankOutW
    (by decide)

/-- C8: with the cohere library absent, constructing a CohereReranker fails
fast with the descriptive construction-time error and builds nothing; with
the library present, construction succeeds without raising. -/
theorem cohere_init_dependency_guard (model_name : String) (top_n : Int)
    (threshold : Rat) :
    CohereReranker.init false model_name top_n threshold =
      Except.error (RerankerInitError.configurationError cohereImportErrorMsg) ∧
    CohereReranker.init true model_name top_n threshold =
      Except.ok { model_name := model_name, top_n := top_n, threshold := threshold } :=
  ⟨rfl, rfl⟩

theorem rerankDocsH_frame (threshold : Rat) (docRefs : List Nat) :
    ∀ (response : List RerankResult) (h h2 : Heap) (out : List Nat),
      rerankDocsH threshold docRefs h response = some (h2, out) →
      h.cells.length ≤ h2.cells.length ∧
      (∀ i, i < h.cells.length → h2.cells[i]? = h.cells[i]?) ∧
      (∀ ref ∈ out, h.cells.length ≤ ref) := by
  intro response
  induction response with
  | nil =>
    intro h h2 out heq
    simp [rerankDocsH] at heq
    rcases heq with ⟨h1, h2⟩
    subst h1; subst h2
    simp
  | cons r rest ih =>
    intro h h2 out heq
    unfold rerankDocsH at heq
    by_cases hthr : threshold ≤ r.relevance_score
    · simp only [hthr, if_true] at heq
      split at heq
      · exact absurd heq (by simp)
      · rename_i ref hidx
        split at heq
        · exact absurd heq (by simp)
        · rename_i d hread
          cases hrec : rerankDocsH threshold docRefs
              ((h.alloc d).1.write (h.alloc d).2
                { d with score := r.relevance_score }) rest with
          | none => rw [hrec] at heq; exact absurd heq (by simp)
          | some o =>
            rw [hrec] at heq
            have hout : (o.1, (h.alloc d).2 :: o.2) = (h2, out) := by
              simpa using heq
            have hmid : ((h.alloc d).1.write (h.alloc d).2
                { d with score := r.relevance_score }).cells.length =
                h.cells.length + 1 := by
              simp [Heap.alloc, Heap.write]
            rcases ih _ o.1 o.2 hrec with ⟨ihlen, ihframe, ihfresh⟩
            rw [hmid] at ihlen ihframe ihfresh
            have hstep : ∀ i, i < h.cells.length →
                ((h.alloc d).1.write (h.alloc d).2
                  { d with score := r.relevance_score }).cells[i]? =
                  h.cells[i]? := by
              intro i hi
              simp only [Heap.alloc, Heap.write]
              rw [List.getElem?_set_ne (by omega)]
              exact List.getElem?_append_left hi
            have halloc2 : (h.alloc d).2 = h.cells.length := rfl
            have hh2 : o.1 = h2 := congrArg Prod.fst hout
            have hoo : (h.alloc d).2 :: o.2 = out := congrArg Prod.snd hout
            subst hh2
            rw [← hoo]
            refine ⟨by omega, ?_, ?_⟩
            · intro i hi
              exact (ihframe i (by omega)).trans (hstep i hi)
            · intro ref2 href2
              rcases List.mem_cons.mp href2 with he | he
              · rw [he, halloc2]
              · have := ihfresh ref2 he
                omega
    · simp only [hthr, if_false] at heq
      exact ih h h2 out heq

theorem rerankOneH_frame (self : CohereReranker) (client : RerankClient)
    (h h2 : Heap) (q_res : KBQueryResultH) (out : KBQueryResultH)
    (heq : self.rerankOneH client h q_res = some (h2, out)) :
    h.cells.length ≤ h2.cells.length ∧
    (∀ i, i < h.cells.length → h2.cells[i]? = h.cells[i]?) ∧
    (∀ ref ∈ out.docs, h.cells.length ≤ ref) := by
  unfold CohereReranker.rerankOneH at heq
  split at heq
  · exact absurd heq (by simp)
  · rename_i docs hdocs
    split at heq
    · exact absurd heq (by simp)
    · rename_i o hrec
      have hout : (o.1, ({ query := q_res.query, docs := o.2 } : KBQueryResultH))
          = (h2, out) := by simpa using heq
      have hh2 : o.1 = h2 := congrArg Prod.fst hout
      have ho2 : ({ query := q_res.query, docs := o.2 } : KBQueryResultH) = out :=
        congrArg Prod.snd hout
      rcases rerankDocsH_frame self.threshold q_res.docs _ h o.1 o.2 hrec with
        ⟨hlen, hframe, hfresh⟩
      subst hh2
      refine ⟨hlen, hframe, ?_⟩
      rw [← ho2]
      exact hfresh

theorem rerankH_frame (self : CohereReranker) (client : RerankClient) :
    ∀ (results : List KBQueryResultH) (h h2 : Heap) (out : List KBQueryResultH),
      self.rerankH client h results = some (h2, out) →
      h.cells.length ≤ h2.cells.length ∧
      (∀ i, i < h.cells.length → h2.cells[i]? = h.cells[i]?) ∧
      (∀ q ∈ out, ∀ ref ∈ q.docs, h.cells.length ≤ ref) := by
  intro results
  induction results with
  | nil =>
    intro h h2 out heq
    simp [CohereReranker.rerankH] at heq
    rcases heq with ⟨h1, h2⟩
    subst h1; subst h2
    simp
  | cons q_res rest ih =>
    intro h h2 out heq
    unfold CohereReranker.rerankH at heq
    split at heq
    · exact absurd heq (by simp)
    · rename_i o1 hone
      split at heq
      · exact absurd heq (by simp)
      · rename_i o2 hrest
        have hout : (o2.1, o1.2 :: o2.2) = (h2, out) := by simpa using heq
        have hh2 : o2.1 = h2 := congrArg Prod.fst hout
        have hoo : o1.2 :: o2.2 = out := congrArg Prod.snd hout
        rcases rerankOneH_frame self client h o1.1 q_res o1.2 (by
          rw [← hone]) with ⟨hlen1, hframe1, hfresh1⟩
        rcases ih o1.1 o2.1 o2.2 (by rw [← hrest]) with ⟨hlen2, hframe2, hfresh2⟩
        subst hh2
        rw [← hoo]
        refine ⟨by omega, ?_, ?_⟩
        · intro i hi
          rw [hframe2 i (by omega)]
          exact hframe1 i hi
        · intro q hq ref href
          rcases List.mem_cons.mp hq with he | he
          · rw [he] at href
            exact hfresh1 ref href
          · have := hfresh2 q he ref href
            omega

/-- C9: rerank does not mutate its input.  Every heap cell that existed
before the call — in particular every input document and its score field —
reads the same after rerankH returns, and every document reference in the
output points to a freshly allocated copy, disjoint from all pre-existing
cells. -/
theorem cohere_rerank_no_mutation (self : CohereReranker)
    (client : RerankClient) (h h2 : Heap)
    (results out : List KBQueryResultH)
    (hrun : self.rerankH client h results = some (h2, out)) :
    (∀ i, i < h.cells.length → h2.read i = h.read i) ∧
    (∀ q ∈ out, ∀ ref ∈ q.docs, h.cells.length ≤ ref) := by
  rcases rerankH_frame self client results h h2 out hrun with ⟨hlen, hframe, hfresh⟩
  exact ⟨fun i hi => hframe i hi, hfresh⟩

/-- Witness for C9: running the heap-level rerank on the concrete input
leaves both pre-existing cells untouched and returns only a fresh
reference. -/
theorem cohere_rerank_no_mutation_witness :
    (∀ i, i < heapW.cells.length →
      Heap.read { cells := heapW.cells ++ [{ id := "b", text := "tb", score := 2 }] } i =
        heapW.read i) ∧
    (∀ q ∈ [({ query := "q1", docs := [2] } : KBQueryResultH)],
      ∀ ref ∈ q.docs, heapW.cells.length ≤ ref) :=
  cohere_rerank_no_mutation rerankerW rerankClientW heapW
    { cells := heapW.cells ++ [{ id := "b", text := "tb", score := 2 }] }
    rerankInHW [{ query := "q1", docs := [2] }] (by decide)

theorem validate_of_findMissing (f : Function) (p : StructuredPayload)
    (name : String) (h : findMissing f p = some name) :
    Function.validate f p = Except.error (requiredPropertyMsg name) := by
  unfold findMissing at h
  cases hf : f.parameters.required_properties.find?
      (fun prop => (p.lookup prop.name).isNone) with
  | none => rw [hf] at h; simp at h
  | some prop =>
    rw [hf] at h
    have hn : prop.name = name := by simpa using h
    unfold Function.validate
    rw [hf]
    simp [hn]

theorem validate_ok_props (f : Function) (p m : StructuredPayload)
    (h : Function.validate f p = Except.ok m) :
    m = p ∧ ∀ prop ∈ f.parameters.required_properties,
      propShapeOk p prop = true := by
  unfold Function.validate at h
  split at h
  · exact absurd h (by simp)
  · rename_i hf1
    split at h
    · exact absurd h (by simp)
    · rename_i hf2
      have hm : p = m := by simpa using h
      refine ⟨hm.symm, ?_⟩
      intro prop hprop
      have := List.find?_eq_none.mp hf2 prop hprop
      simpa using this

theorem propShapeOk_spec (payload : StructuredPayload)
    (prop : FunctionArrayProperty) (h : propShapeOk payload prop = true) :
    ∃ elems, payload.lookup prop.name = some (JsonValue.arr elems) ∧
      elems ≠ [] ∧ ∀ x ∈ elems, itemOk prop.items_type x = true := by
  unfold propShapeOk at h
  split at h
  · rename_i elems hl
    refine ⟨elems, hl, ?_, ?_⟩
    · have := (Bool.and_eq_true _ _).mp h
      intro he
      rw [he] at this
      simp at this
    · have := (Bool.and_eq_true _ _).mp h
      intro x hx
      exact List.all_eq_true.mp this.2 x hx
  · exact absurd h (by simp)

theorem enforcedCallFrom_ok (client : ChatClient) (f : Function)
    (messages : List MessageBase) :
    ∀ (retriesLeft attemptIdx c : Nat) (m : StructuredPayload),
      enforcedCallFrom client f messages attemptIdx retriesLeft =
        (c, Except.ok m) →
      ∃ p, Function.validate f p = Except.ok m := by
  intro retriesLeft
  induction retriesLeft with
  | zero =>
    intro attemptIdx c m h
    unfold enforcedCallFrom at h
    split at h
    · exact absurd h (by simp)
    · rename_i p hp
      split at h
      · rename_i m2 hm2
        have hmm : m2 = m := (show 1 = c ∧ m2 = m by simpa using h).2
        exact ⟨p, by rw [hm2, hmm]⟩
      · exact absurd h (by simp)
  | succ n ih =>
    intro attemptIdx c m h
    unfold enforcedCallFrom at h
    split at h
    · exact absurd h (by simp)
    · rename_i p hp
      split at h
      · rename_i m2 hm2
        have hmm : m2 = m := (show 1 = c ∧ m2 = m by simpa using h).2
        exact ⟨p, by rw [hm2, hmm]⟩
      · rename_i msg hmsg
        have h2 : (enforcedCallFrom client f messages (attemptIdx + 1) n).2 =
            Except.ok m := by
          have := congrArg Prod.snd h
          simpa using this
        exact ih (attemptIdx + 1)
          (enforcedCallFrom client f messages (attemptIdx + 1) n).1 m
          (by rw [← h2])

theorem enforcedCallFrom_step (client : ChatClient) (f : Function)
    (messages : List MessageBase) (attemptIdx retries n : Nat)
    (hr : retries = n + 1) (p : StructuredPayload) (msg : String)
    (hc : client messages attemptIdx = VendorResult.payload p)
    (hv : Function.validate f p = Except.error msg) :
    enforcedCallFrom client f messages attemptIdx retries =
      ((enforcedCallFrom client f messages (attemptIdx + 1) n).1 + 1,
       (enforcedCallFrom client f messages (attemptIdx + 1) n).2) := by
  subst hr
  simp only [enforcedCallFrom, hc, hv]

theorem enforcedCallFrom_last (client : ChatClient) (f : Function)
    (messages : List MessageBase) (attemptIdx : Nat)
    (p : StructuredPayload) (msg : String)
    (hc : client messages attemptIdx = VendorResult.payload p)
    (hv : Function.validate f p = Except.error msg) :
    enforcedCallFrom client f messages attemptIdx 0 =
      (1, Except.error (LLMError.schemaValidationError msg)) := by
  simp only [enforcedCallFrom, hc, hv]

/-- C1: when every vendor round trip returns a payload missing some
required property, enforced_function_call makes exactly 3 vendor calls and
then raises a SchemaValidationError whose message names a required property
missing from the payload of the final attempt. -/
theorem enforced_function_call_retries_exhausted (client : ChatClient)
    (f : Function) (messages : List MessageBase)
    (hbad : ∀ i : Nat, ∃ p name, client messages i = VendorResult.payload p ∧
      findMissing f p = some name) :
    (enforced_function_call client f messages).1 = 3 ∧
    ∃ p name, client messages 2 = VendorResult.payload p ∧
      findMissing f p = some name ∧
      (enforced_function_call client f messages).2 =
        Except.error (LLMError.schemaValidationError (requiredPropertyMsg name)) := by
  obtain ⟨p0, n0, hc0, hm0⟩ := hbad 0
  obtain ⟨p1, n1, hc1, hm1⟩ := hbad 1
  obtain ⟨p2, n2, hc2, hm2⟩ := hbad 2
  have hv0 := validate_of_findMissing f p0 n0 hm0
  have hv1 := validate_of_findMissing f p1 n1 hm1
  have hv2 := validate_of_findMissing f p2 n2 hm2
  have hrun : enforced_function_call client f messages =
      (3, Except.error (LLMError.schemaValidationError (requiredPropertyMsg n2))) := by
    unfold enforced_function_call MAX_ATTEMPTS
    show enforcedCallFrom client f messages 0 2 = _
    rw [enforcedCallFrom_step client f messages 0 2 1 rfl p0 _ hc0 hv0]
    rw [enforcedCallFrom_step client f messages (0 + 1) 1 0 rfl p1 _ hc1 hv1]
    rw [enforcedCallFrom_last client f messages (0 + 1 + 1) p2 _ hc2 hv2]
  exact ⟨by rw [hrun], p2, n2, hc2, hm2, by rw [hrun]⟩

/-- C3: a successful enforced_function_call returns a mapping that contains
every required property of the Function Definition, each as a non-empty
array whose elements are non-empty values of the declared item type. -/
theorem enforced_function_call_ok_schema (client : ChatClient) (f : Function)
    (messages : List MessageBase) (c : Nat) (m : StructuredPayload)
    (h : enforced_function_call client f messages = (c, Except.ok m)) :
    ∀ prop ∈ f.parameters.required_properties,
      ∃ elems, m.lookup prop.name = some (JsonValue.arr elems) ∧
        elems ≠ [] ∧ ∀ x ∈ elems, itemOk prop.items_type x = true := by
  intro prop hprop
  unfold enforced_function_call at h
  rcases enforcedCallFrom_ok client f messages _ _ _ _ h with ⟨p, hv⟩
  rcases validate_ok_props f p m hv with ⟨hm, hall⟩
  rw [hm]
  exact propShapeOk_spec p prop (hall prop hprop)

theorem chunkChars_flatten (sizes : List Nat) :
    ∀ cs : List Char, (chunkChars sizes cs).flatten = cs := by
  induction sizes with
  | nil =>
    intro cs
    cases cs with
    | nil => simp [chunkChars]
    | cons a l => simp [chunkChars]
  | cons k rest ih =>
    intro cs
    cases cs with
    | nil => simp [chunkChars]
    | cons a l =>
      simp only [chunkChars, List.isEmpty_cons, Bool.false_eq_true, if_false,
        List.flatten_cons]
      rw [ih]
      exact List.take_append_drop (k + 1) (a :: l)

theorem chunkChars_ne_nil (sizes : List Nat) (cs : List Char) (h : cs ≠ []) :
    chunkChars sizes cs ≠ [] := by
  cases sizes with
  | nil =>
    cases cs with
    | nil => exact absurd rfl h
    | cons a l => simp [chunkChars]
  | cons k rest =>
    cases cs with
    | nil => exact absurd rfl h
    | cons a l => simp [chunkChars]

theorem concatContent_mk (l : List (List Char)) :
    concatContent (l.map (fun cs => { content := String.mk cs })) =
      String.mk l.flatten := by
  induction l with
  | nil => rfl
  | cons c rest ih =>
    simp only [List.map_cons, concatContent, List.flatten_cons]
    rw [ih]
    rfl

/-- C5: chat_completion with an empty messages sequence, and
chat_completion with a negative max-token bound, each yield the vendor
rejection as an UpstreamError and never a successful response, in both the
non-streaming and the streaming mode. -/
theorem chat_completion_rejects_bad_request
    (gen : List MessageBase → Nat → String) (sgen : List MessageBase → String)
    (sizes : List Nat) (params : ModelParams) (messages : List MessageBase)
    (t : Int) (ht : t < 0) :
    (∃ msg, chat_completion gen [] params =
      Except.error (LLMError.upstreamError msg)) ∧
    (∃ msg, chat_completion gen messages { params with max_tokens := some t } =
      Except.error (LLMError.upstreamError msg)) ∧
    (∃ msg, chat_completion_stream sgen sizes [] params.max_tokens =
      Except.error (LLMError.upstreamError msg)) ∧
    (∃ msg, chat_completion_stream sgen sizes messages (some t) =
      Except.error (LLMError.upstreamError msg)) := by
  refine ⟨⟨emptyMessagesMsg, rfl⟩, ?_, ⟨emptyMessagesMsg, rfl⟩, ?_⟩
  · by_cases hme : messages.isEmpty
    · exact ⟨emptyMessagesMsg, by
        simp [chat_completion, vendor_chat_completion, hme]⟩
    · exact ⟨negativeMaxTokensMsg, by
        simp [chat_completion, vendor_chat_completion, hme, ht]⟩
  · by_cases hme : messages.isEmpty
    · exact ⟨emptyMessagesMsg, by simp [chat_completion_stream, hme]⟩
    · exact ⟨negativeMaxTokensMsg, by simp [chat_completion_stream, hme, ht]⟩

/-- C6: a non-streaming chat_completion requesting n completions returns
exactly n choices (exactly 1 when n is unspecified), each choice holding an
assistant-role message with non-empty content, provided the request is not
rejected and the vendor generates non-empty contents. -/
theorem chat_completion_choice_count (gen : List MessageBase → Nat → String)
    (params : ModelParams) (messages : List MessageBase)
    (hm : messages ≠ [])
    (hn : ∀ k, params.n = some k → 1 ≤ k)
    (hmt : ∀ t, params.max_tokens = some t → 0 ≤ t)
    (hgen : ∀ i, gen messages i ≠ "") :
    ∃ resp, chat_completion gen messages params = Except.ok resp ∧
      resp.choices.length = params.n.getD 1 ∧
      (params.n = none → resp.choices.length = 1) ∧
      ∀ choice ∈ resp.choices,
        choice.message.role = Role.assistant ∧ choice.message.content ≠ "" := by
  have hne : messages.isEmpty = false := by
    cases messages with
    | nil => exact absurd rfl hm
    | cons a l => rfl
  refine ⟨mkChatResponse gen messages (params.n.getD 1), ?_, ?_, ?_, ?_⟩
  · unfold chat_completion vendor_chat_completion
    rw [hne]
    cases hmt2 : params.max_tokens with
    | none => simp
    | some t =>
      have hge := hmt t hmt2
      simp [not_lt.mpr hge]
  · unfold mkChatResponse
    simp
  · intro hnone
    unfold mkChatResponse
    simp [hnone]
  · intro choice hchoice
    unfold mkChatResponse at hchoice
    simp only [List.mem_map, List.mem_range] at hchoice
    rcases hchoice with ⟨i, hi, hc⟩
    constructor
    · rw [← hc]
    · rw [← hc]
      exact hgen i

/-- C7: streaming chat_completion on a valid non-empty request yields at
least one chunk, every element is a streaming chat chunk, and the
concatenation of the chunk contents reconstructs the complete non-empty
generated message. -/
theorem chat_completion_stream_reassembles (sgen : List MessageBase → String)
    (sizes : List Nat) (messages : List MessageBase) (max_tokens : Option Int)
    (hm : messages ≠ [])
    (hmt : ∀ t, max_tokens = some t → 0 ≤ t)
    (hgen : sgen messages ≠ "") :
    ∃ chunks, chat_completion_stream sgen sizes messages max_tokens =
        Except.ok chunks ∧
      chunks ≠ [] ∧ concatContent chunks = sgen messages := by
  have hne : messages.isEmpty = false := by
    cases messages with
    | nil => exact absurd rfl hm
    | cons a l => rfl
  refine ⟨(chunkChars sizes (sgen messages).data).map
      (fun cs => { content := String.mk cs }), ?_, ?_, ?_⟩
  · unfold chat_completion_stream
    rw [hne]
    cases hmt2 : max_tokens with
    | none => simp
    | some t =>
      have hge := hmt t hmt2
      simp [not_lt.mpr hge]
  · have hd : (sgen messages).data ≠ [] := by
      intro hdata
      apply hgen
      have : sgen messages = String.mk (sgen messages).data := rfl
      rw [hdata] at this
      exact this
    have := chunkChars_ne_nil sizes (sgen messages).data hd
    simpa using this
  · rw [concatContent_mk, chunkChars_flatten]

/-- C4: when the vendor client itself raises on the call,
enforced_function_call surfaces the failure as an UpstreamError after
exactly one vendor call, with no retry. -/
theorem enforced_function_call_upstream_no_retry (client : ChatClient)
    (f : Function) (messages : List MessageBase) (msg : String)
    (h : client messages 0 = VendorResult.failure msg) :
    enforced_function_call client f messages =
      (1, Except.error (LLMError.upstreamError msg)) := by
  unfold enforced_function_call MAX_ATTEMPTS
  unfold enforcedCallFrom
  rw [h]

/-- Witness for C1: the wrong-schema client is called exactly 3 times and
the final error names the missing queries property. -/
theorem enforced_function_call_retries_exhausted_witness :
    (enforced_function_call badChatClientW functionW messagesW).1 = 3 ∧
    ∃ p name, badChatClientW messagesW 2 = VendorResult.payload p ∧
      findMissing functionW p = some name ∧
      (enforced_function_call badChatClientW functionW messagesW).2 =
        Except.error (LLMError.schemaValidationError (requiredPropertyMsg name)) :=
  enforced_function_call_retries_exhausted badChatClientW functionW messagesW
    (fun i => ⟨[("key", JsonValue.str "value")], "queries", rfl, rfl⟩)

/-- Witness for C3 at the concrete well-formed client, instantiated at the
single required property of the test Function Definition. -/
theorem enforced_function_call_ok_schema_witness :
    ∃ elems, goodPayloadW.lookup queriesPropW.name = some (JsonValue.arr elems) ∧
      elems ≠ [] ∧ ∀ x ∈ elems, itemOk queriesPropW.items_type x = true :=
  enforced_function_call_ok_schema goodChatClientW functionW messagesW 1
    goodPayloadW rfl queriesPropW (by decide)

/-- Witness for C4 at the concrete always-raising client. -/
theorem enforced_function_call_upstream_no_retry_witness :
    enforced_function_call failChatClientW functionW messagesW =
      (1, Except.error (LLMError.upstreamError "API call failed")) :=
  enforced_function_call_upstream_no_retry failChatClientW functionW messagesW
    "API call failed" rfl

/-- Witness for C5 at concrete inputs with max_tokens set to -5. -/
theorem chat_completion_rejects_bad_request_witness :
    (∃ msg, chat_completion genW [] paramsW =
      Except.error (LLMError.upstreamError msg)) ∧
    (∃ msg, chat_completion genW messagesW
        { paramsW with max_tokens := some (-5) } =
      Except.error (LLMError.upstreamError msg)) ∧
    (∃ msg, chat_completion_stream sgenW [1, 2] [] paramsW.max_tokens =
      Except.error (LLMError.upstreamError msg)) ∧
    (∃ msg, chat_completion_stream sgenW [1, 2] messagesW (some (-5)) =
      Except.error (LLMError.upstreamError msg)) :=
  chat_completion_rejects_bad_request genW sgenW [1, 2] paramsW messagesW (-5)
    (by decide)

/-- Witness for C6 at the concrete three-choice request. -/
theorem chat_completion_choice_count_witness :
    ∃ resp, chat_completion genW messagesW paramsW = Except.ok resp ∧
      resp.choices.length = paramsW.n.getD 1 ∧
      (paramsW.n = none → resp.choices.length = 1) ∧
      ∀ choice ∈ resp.choices,
        choice.message.role = Role.assistant ∧ choice.message.content ≠ "" :=
  chat_completion_choice_count genW paramsW messagesW (by decide)
    (fun k hk => by rw [← Option.some.inj hk]; decide)
    (fun t ht => by rw [← Option.some.inj ht]; decide)
    (fun i => (by decide : ("Hello there" : String) ≠ ""))

/-- Witness for C7 at a concrete chunking of a concrete message. -/
theorem chat_completion_stream_reassembles_witness :
    ∃ chunks, chat_completion_stream sgenW [1, 2] messagesW none =
        Except.ok chunks ∧
      chunks ≠ [] ∧ concatContent chunks = sgenW messagesW :=
  chat_completion_stream_reassembles sgenW [1, 2] messagesW none (by decide)
    (fun t ht => Option.noConfusion ht)
    (by decide)
